import Mathlib

/-!
Shallow embedding of `src/agent/Terminal.cc` (the winpty terminal escape-code
encoder).  Byte strings are modelled as `List Char` (all emitted fragment
bytes are ASCII; glyph output is modelled at character granularity, and every
snapshot of the source's byte-length bookkeeping falls on an emission
boundary, so the transmitted prefix contains exactly the same emissions as the
byte-level original).  Each call to `m_output->write` is one element of a
`List (List Char)`, so the number and the content of the individual writes are
both visible.
-/

/-! ### Constants from Terminal.cc and wincon.h -/

-- Windows console attribute bits (the wincon.h values used by Terminal.cc).
def FOREGROUND_BLUE : Nat := 1
def FOREGROUND_GREEN : Nat := 2
def FOREGROUND_RED : Nat := 4
def FOREGROUND_INTENSITY : Nat := 8
def BACKGROUND_BLUE : Nat := 16
def BACKGROUND_GREEN : Nat := 32
def BACKGROUND_RED : Nat := 64
def BACKGROUND_INTENSITY : Nat := 128

def COLOR_ATTRIBUTE_MASK : Nat :=
  FOREGROUND_BLUE ||| FOREGROUND_GREEN ||| FOREGROUND_RED ||| FOREGROUND_INTENSITY |||
  BACKGROUND_BLUE ||| BACKGROUND_GREEN ||| BACKGROUND_RED ||| BACKGROUND_INTENSITY

def FLAG_RED : Nat := 1
def FLAG_GREEN : Nat := 2
def FLAG_BLUE : Nat := 4
def FLAG_BRIGHT : Nat := 8

def BLACK : Nat := 0
def DKGRAY : Nat := BLACK ||| FLAG_BRIGHT
def LTGRAY : Nat := FLAG_RED ||| FLAG_GREEN ||| FLAG_BLUE
def WHITE : Nat := LTGRAY ||| FLAG_BRIGHT

-- SGR parameters (Select Graphic Rendition)
def SGR_FORE : Nat := 30
def SGR_FORE_HI : Nat := 90
def SGR_BACK : Nat := 40
def SGR_BACK_HI : Nat := 100

def WINPTY_COMMON_LVB_LEADING_BYTE : Nat := 0x100
def WINPTY_COMMON_LVB_TRAILING_BYTE : Nat := 0x200

-- #define CSI "\x1b["
def CSI : List Char := ['\x1b', '[']

/-! ### outUInt and outputSetColorSgrParams -/

/-- The do-while digit loop of `outUInt`: the source writes the decimal digits
of `n` backwards into a buffer, so the accumulator is built by prepending the
current least significant digit.  The loop runs once per decimal digit; the
structural bound `fuel` is instantiated with `n` itself, which always exceeds
the remaining iteration count, so the `fuel = 0` base case is exactly the
final loop iteration. -/
def outUIntAux (fuel n : Nat) (acc : List Char) : List Char :=
  let acc' := Char.ofNat (48 + n % 10) :: acc
  match fuel with
  | 0 => acc'
  | fuel + 1 => if n / 10 = 0 then acc' else outUIntAux fuel (n / 10) acc'

/-- The decimal digit string of `n`, most significant digit first. -/
def decDigits (n : Nat) : List Char :=
  outUIntAux n n []

/-- `outUInt(out, n)` appends the decimal digits of `n` to `out`. -/
def outUInt (out : List Char) (n : Nat) : List Char :=
  out ++ decDigits n

/-- `outputSetColorSgrParams(out, isFore, color)` from Terminal.cc. -/
def outputSetColorSgrParams (out : List Char) (isFore : Bool) (color : Nat) : List Char :=
  let out1 := out ++ [';']
  let sgrBase := if isFore then SGR_FORE else SGR_BACK
  if color &&& FLAG_BRIGHT ≠ 0 then
    -- `color & ~FLAG_BRIGHT` in the source clears the bright bit; the colors
    -- passed here are 4-bit values, so this equals masking with 7.
    let colorBase := color &&& 7
    outUInt (outUInt out1 (sgrBase + colorBase) ++ [';'])
            (sgrBase + (SGR_FORE_HI - SGR_FORE) + colorBase)
  else
    outUInt out1 (sgrBase + color)

/-! ### Terminal state -/

/-- The mutable state of a `Terminal` object.  `m_termLine` is not part of the
state: it is cleared at the start of every `sendLine` call, so no information
carries through it between calls. -/
@[ext]
structure Terminal where
  remoteLine : Int
  cursorHidden : Bool
  cursorPos : Int × Int
  remoteColor : Int
  consoleMode : Bool
  deriving DecidableEq

/-- The `Terminal` constructor: `m_remoteLine = 0`, `m_cursorHidden = false`,
`m_remoteColor = -1`, `m_consoleMode = false`; `m_cursorPos` is a
value-initialised `std::pair<int, int>`, i.e. `(0, 0)`. -/
def initTerminal : Terminal :=
  { remoteLine := 0
    cursorHidden := false
    cursorPos := (0, 0)
    remoteColor := -1
    consoleMode := false }

/-- `Terminal::setConsoleMode`. -/
def setConsoleMode (t : Terminal) (mode : Int) : Terminal :=
  if mode = 1 then { t with consoleMode := true } else { t with consoleMode := false }

/-- `Terminal::reset(sendClearFirst, newLine)`. -/
def reset (t : Terminal) (sendClearFirst : Bool) (newLine : Int) : Terminal × List (List Char) :=
  let w := if sendClearFirst ∧ ¬t.consoleMode then
             [CSI ++ ['0', 'm'] ++ CSI ++ ['1', ';', '1', 'H'] ++ CSI ++ ['2', 'J']]
           else []
  ({ t with remoteLine := newLine
            cursorHidden := false
            cursorPos := (0, newLine)
            remoteColor := -1 }, w)

/-- `Terminal::hideTerminalCursor`. -/
def hideTerminalCursor (t : Terminal) : Terminal × List (List Char) :=
  if t.cursorHidden then (t, [])
  else ({ t with cursorHidden := true },
        if ¬t.consoleMode then [CSI ++ ['?', '2', '5', 'l']] else [])

/-- `sprintf` of an `int` with `%d`. -/
def decOfInt (i : Int) : List Char :=
  if i < 0 then '-' :: decDigits i.natAbs else decDigits i.toNat

/-- The `while (line > m_remoteLine)` loop of `Terminal::moveTerminalToLine`:
each iteration writes `"\r\n"` (unless in console mode) and increments
`m_remoteLine`. -/
def moveDownLoop (t : Terminal) (line : Int) : Terminal × List (List Char) :=
  if t.remoteLine < line then
    let w := if ¬t.consoleMode then [['\r', '\n']] else []
    let r := moveDownLoop { t with remoteLine := t.remoteLine + 1 } line
    (r.1, w ++ r.2)
  else (t, [])
termination_by (line - t.remoteLine).toNat
decreasing_by simp_wf; omega

/-- `Terminal::moveTerminalToLine(line)`. -/
def moveTerminalToLine (t : Terminal) (line : Int) : Terminal × List (List Char) :=
  if line < t.remoteLine then
    -- CUrsor Up (CUU): sprintf(buffer, "\r" CSI"%dA", m_remoteLine - line)
    ({ t with remoteLine := line },
     if ¬t.consoleMode then [('\r' :: CSI) ++ decOfInt (t.remoteLine - line) ++ ['A']] else [])
  else if t.remoteLine < line then
    moveDownLoop t line
  else
    (t, [['\r']])

/-! ### sendLine -/

/-- One `CHAR_INFO` cell: a UTF-16 code unit and the packed attribute word. -/
structure CHAR_INFO where
  UnicodeChar : Nat
  Attributes : Nat
  deriving DecidableEq

/-- `lineData[i].Attributes & COLOR_ATTRIBUTE_MASK`, as the `int` that is
compared against `m_remoteColor`. -/
def colorInt (cell : CHAR_INFO) : Int :=
  ((cell.Attributes &&& COLOR_ATTRIBUTE_MASK : Nat) : Int)

/-- The foreground 4-bit color extracted from a masked attribute word. -/
def foreOfColor (color : Nat) : Nat :=
  (if color &&& FOREGROUND_RED ≠ 0 then FLAG_RED else 0) |||
  (if color &&& FOREGROUND_GREEN ≠ 0 then FLAG_GREEN else 0) |||
  (if color &&& FOREGROUND_BLUE ≠ 0 then FLAG_BLUE else 0) |||
  (if color &&& FOREGROUND_INTENSITY ≠ 0 then FLAG_BRIGHT else 0)

/-- The background 4-bit color extracted from a masked attribute word. -/
def backOfColor (color : Nat) : Nat :=
  (if color &&& BACKGROUND_RED ≠ 0 then FLAG_RED else 0) |||
  (if color &&& BACKGROUND_GREEN ≠ 0 then FLAG_GREEN else 0) |||
  (if color &&& BACKGROUND_BLUE ≠ 0 then FLAG_BLUE else 0) |||
  (if color &&& BACKGROUND_INTENSITY ≠ 0 then FLAG_BRIGHT else 0)

/-- The escape fragment appended to `m_termLine` for one color change: the
inline block of `Terminal::sendLine` from `m_termLine.append(CSI"0")` to
`m_termLine.push_back('m')`, factored out as a function of the translated
foreground/background pair. -/
def colorFragment (fore back : Nat) : List Char :=
  let s0 := CSI ++ ['0']
  let s1 :=
    if back = BLACK then
      if fore = LTGRAY then s0
      else if fore = WHITE then s0 ++ [';', '1']
      else if fore = DKGRAY then s0 ++ [';', '3', '7', ';', '9', '0']
      else outputSetColorSgrParams s0 true fore
    else if back = WHITE then
      let s2 := s0 ++ [';', '7']
      if fore = LTGRAY ∨ fore = BLACK then s2
      else outputSetColorSgrParams s2 false fore
    else
      outputSetColorSgrParams (outputSetColorSgrParams s0 true fore) false back
  let s3 := if fore = back then s1 ++ [';', '8'] else s1
  s3 ++ ['m']

/-- The `ch <= 6` box-drawing remapping of `Terminal::sendLine`. -/
def remapChar (ch : Nat) : Nat :=
  if ch ≤ 6 then
    match ch with
    | 1 => 0x2554
    | 2 => 0x2557
    | 3 => 0x255A
    | 4 => 0x255D
    | 5 => 0x2551
    | 6 => 0x2550
    | _ => ch
  else ch

/-- Modelled from the spec: `WideCharToMultiByte(CP_UTF8, ...)` on a single
UTF-16 code unit is not part of this repository.  Per the spec (4.2), the
conversion fails exactly on an invalid scalar value (a surrogate half) and
otherwise yields the UTF-8 encoding of the scalar, modelled here at character
granularity. -/
def wideCharToMultiByte (ch : Nat) : Option (List Char) :=
  if 0xD800 ≤ ch ∧ ch < 0xE000 then none
  else if ch < 0x110000 then some [Char.ofNat ch] else none

/-- The bytes produced for a non-trailing cell's glyph: the remapped code
point encoded by `wideCharToMultiByte`, with the `'?'` fallback on failure. -/
def glyphOf (cell : CHAR_INFO) : List Char :=
  match wideCharToMultiByte (remapChar cell.UnicodeChar) with
  | some mb => mb
  | none => ['?']

/-- The bytes a cell appends to the row buffer, glyph part only: a cell
marked `COMMON_LVB_TRAILING_BYTE` appends nothing. -/
def cellGlyph (cell : CHAR_INFO) : List Char :=
  if cell.Attributes &&& WINPTY_COMMON_LVB_TRAILING_BYTE ≠ 0 then [] else glyphOf cell

/-- The per-row accumulator of `Terminal::sendLine`: the scratch buffer
`m_termLine`, the local `length`, and the running `m_remoteColor`. -/
structure LineAcc where
  termLine : List Char
  length : Nat
  remoteColor : Int
  deriving DecidableEq

/-- The color-handling prefix of one iteration of the `sendLine` cell loop:
append a color fragment (and snapshot `length`) when the cell's masked color
differs from `m_remoteColor` and console mode is off, then store the color
into `m_remoteColor` unconditionally. -/
def sendLineColorStep (consoleMode : Bool) (acc : LineAcc) (cell : CHAR_INFO) : LineAcc :=
  let color := colorInt cell
  let acc1 :=
    if color ≠ acc.remoteColor ∧ ¬consoleMode then
      let c := cell.Attributes &&& COLOR_ATTRIBUTE_MASK
      let tl := acc.termLine ++ colorFragment (foreOfColor c) (backOfColor c)
      { acc with termLine := tl, length := tl.length }
    else acc
  { acc1 with remoteColor := color }

/-- One full iteration of the `sendLine` cell loop: the color step, then the
`continue` on a trailing-byte cell, then the glyph emission (a lone space
does not move the `length` snapshot; anything else does). -/
def sendLineCell (consoleMode : Bool) (acc : LineAcc) (cell : CHAR_INFO) : LineAcc :=
  let acc1 := sendLineColorStep consoleMode acc cell
  if cell.Attributes &&& WINPTY_COMMON_LVB_TRAILING_BYTE ≠ 0 then acc1
  else
    let mb := glyphOf cell
    if mb = [' '] then { acc1 with termLine := acc1.termLine ++ [' '] }
    else
      let tl := acc1.termLine ++ mb
      { acc1 with termLine := tl, length := tl.length }

/-- The whole cell loop of `Terminal::sendLine`, starting from a cleared
`m_termLine`, `length = 0`, and the incoming `m_remoteColor`. -/
def sendLineLoop (consoleMode : Bool) (seed : Int) (cells : List CHAR_INFO) : LineAcc :=
  cells.foldl (sendLineCell consoleMode) { termLine := [], length := 0, remoteColor := seed }

/-- `Terminal::sendLine(line, lineData, width)`; the cell array is a list, so
`width` is its length. -/
def sendLine (t : Terminal) (line : Int) (lineData : List CHAR_INFO) :
    Terminal × List (List Char) :=
  let r1 := hideTerminalCursor t
  let r2 := moveTerminalToLine r1.1 line
  let w3 := if ¬r2.1.consoleMode then [CSI ++ ['2', 'K']] else []
  let acc := sendLineLoop r2.1.consoleMode r2.1.remoteColor lineData
  ({ r2.1 with remoteColor := acc.remoteColor },
   r1.2 ++ r2.2 ++ w3 ++ [acc.termLine.take acc.length])

/-- `Terminal::finishOutput(newCursorPos)`; a cursor position is the pair
`(column, row)` like the `std::pair` in the source. -/
def finishOutput (t : Terminal) (newCursorPos : Int × Int) : Terminal × List (List Char) :=
  let r1 := if newCursorPos ≠ t.cursorPos then hideTerminalCursor t else (t, [])
  if r1.1.cursorHidden then
    let r2 := moveTerminalToLine r1.1 newCursorPos.2
    let w3 := if ¬r2.1.consoleMode then
                [CSI ++ decOfInt (newCursorPos.1 + 1) ++ ['G'] ++ CSI ++ ['?', '2', '5', 'h']]
              else []
    ({ r2.1 with cursorHidden := false, cursorPos := newCursorPos }, r1.2 ++ r2.2 ++ w3)
  else
    ({ r1.1 with cursorPos := newCursorPos }, r1.2)

/-! ### Operation sequences and the belief state -/

/-- One public operation on a `Terminal`. -/
inductive Op where
  | rst (sendClearFirst : Bool) (newLine : Int)
  | row (line : Int) (lineData : List CHAR_INFO)
  | hide
  | move (line : Int)
  | fin (pos : Int × Int)

/-- Run one operation. -/
def step (t : Terminal) : Op → Terminal × List (List Char)
  | .rst b l => reset t b l
  | .row l cs => sendLine t l cs
  | .hide => hideTerminalCursor t
  | .move l => moveTerminalToLine t l
  | .fin p => finishOutput t p

/-- Run a sequence of operations, keeping only the state. -/
def runOps (ops : List Op) (t : Terminal) : Terminal :=
  ops.foldl (fun s op => (step s op).1) t

/-- The encoder's belief state: everything in `Terminal` except the
`consoleMode` configuration flag. -/
def belief (t : Terminal) : Int × Bool × (Int × Int) × Int :=
  (t.remoteLine, t.cursorHidden, t.cursorPos, t.remoteColor)

/-! ### Characterization lemmas for the state transitions -/

theorem hideTerminalCursor_fst (t : Terminal) :
    (hideTerminalCursor t).1 = { t with cursorHidden := true } := by
  by_cases h : t.cursorHidden
  · simp [hideTerminalCursor, h]
    cases t
    simp_all
  · simp [hideTerminalCursor, h]

theorem moveDownLoop_eq (t : Terminal) (line : Int) :
    moveDownLoop t line =
      ({ t with remoteLine := if t.remoteLine < line then line else t.remoteLine },
       if t.consoleMode then [] else List.replicate (line - t.remoteLine).toNat ['\r', '\n']) := by
  generalize hk : (line - t.remoteLine).toNat = k
  induction k generalizing t with
  | zero =>
    have hnot : ¬ t.remoteLine < line := by omega
    rw [moveDownLoop]
    simp [hnot, hk]
  | succ k ih =>
    have hlt : t.remoteLine < line := by omega
    rw [moveDownLoop]
    simp only [if_pos hlt]
    rw [ih { t with remoteLine := t.remoteLine + 1 } (by simp; omega)]
    have h1 : (if t.remoteLine + 1 < line then line else t.remoteLine + 1) = line := by
      split <;> omega
    have h2 : (line - (t.remoteLine + 1)).toNat = k := by omega
    simp only [h1, h2, if_pos hlt]
    by_cases hc : t.consoleMode <;> simp [hc, List.replicate_succ]

theorem moveTerminalToLine_eq (t : Terminal) (line : Int) :
    moveTerminalToLine t line =
      ({ t with remoteLine := line },
       if line < t.remoteLine then
         (if t.consoleMode then [] else [('\r' :: CSI) ++ decOfInt (t.remoteLine - line) ++ ['A']])
       else if t.remoteLine < line then
         (if t.consoleMode then [] else List.replicate (line - t.remoteLine).toNat ['\r', '\n'])
       else [['\r']]) := by
  rcases lt_trichotomy line t.remoteLine with h | h | h
  · simp [moveTerminalToLine, h, not_lt.2 h.le]
    by_cases hc : t.consoleMode <;> simp [hc]
  · subst h
    simp only [moveTerminalToLine, lt_irrefl, if_neg (lt_irrefl _)]
    cases t
    simp
  · rw [moveTerminalToLine, if_neg (by omega), if_pos h, moveDownLoop_eq]
    simp [h, not_lt.2 h.le]

theorem finishOutput_fst (t : Terminal) (p : Int × Int) :
    (finishOutput t p).1 =
      { t with remoteLine := if p ≠ t.cursorPos ∨ t.cursorHidden then p.2 else t.remoteLine,
               cursorHidden := false,
               cursorPos := p } := by
  by_cases hp : p = t.cursorPos
  · by_cases hh : t.cursorHidden
    · simp [finishOutput, hp, hh, moveTerminalToLine_eq]
    · simp [finishOutput, hp, hh]
  · simp [finishOutput, hp, hideTerminalCursor_fst, moveTerminalToLine_eq]

theorem sendLineCell_remoteColor (consoleMode : Bool) (acc : LineAcc) (cell : CHAR_INFO) :
    (sendLineCell consoleMode acc cell).remoteColor = colorInt cell := by
  simp only [sendLineCell, sendLineColorStep]
  split <;> split <;> simp_all

theorem sendLineLoop_foldl (consoleMode : Bool) (cells : List CHAR_INFO) (acc : LineAcc) :
    (cells.foldl (sendLineCell consoleMode) acc).remoteColor =
      cells.foldl (fun _ c => colorInt c) acc.remoteColor := by
  induction cells generalizing acc with
  | nil => rfl
  | cons c cs ih =>
    simp only [List.foldl_cons, ih, sendLineCell_remoteColor]

theorem sendLineLoop_remoteColor (consoleMode : Bool) (seed : Int) (cells : List CHAR_INFO) :
    (sendLineLoop consoleMode seed cells).remoteColor =
      cells.foldl (fun _ c => colorInt c) seed := by
  simp [sendLineLoop, sendLineLoop_foldl]

theorem sendLine_fst (t : Terminal) (line : Int) (cells : List CHAR_INFO) :
    (sendLine t line cells).1 =
      { t with cursorHidden := true,
               remoteLine := line,
               remoteColor := cells.foldl (fun _ c => colorInt c) t.remoteColor } := by
  simp only [sendLine, hideTerminalCursor_fst, moveTerminalToLine_eq, sendLineLoop_remoteColor]

/-! ### Lemmas about the row buffer accumulated by the cell loop -/

theorem colorFragment_concat (fore back : Nat) :
    ∃ s, colorFragment fore back = s ++ ['m'] :=
  ⟨_, rfl⟩

theorem glyphOf_single (cell : CHAR_INFO) :
    ∃ c, glyphOf cell = [c] := by
  unfold glyphOf wideCharToMultiByte
  by_cases h1 : 0xD800 ≤ remapChar cell.UnicodeChar ∧ remapChar cell.UnicodeChar < 0xE000
  · simp only [if_pos h1]
    exact ⟨'?', rfl⟩
  · by_cases h2 : remapChar cell.UnicodeChar < 0x110000
    · simp only [if_neg h1, if_pos h2]
      exact ⟨_, rfl⟩
    · simp only [if_neg h1, if_neg h2]
      exact ⟨'?', rfl⟩

theorem sendLineCell_termLine_of_no_frag (m : Bool) (acc : LineAcc) (cell : CHAR_INFO)
    (h : m = true ∨ colorInt cell = acc.remoteColor) :
    (sendLineCell m acc cell).termLine = acc.termLine ++ cellGlyph cell := by
  have hcond : ¬(colorInt cell ≠ acc.remoteColor ∧ ¬m = true) := by
    rcases h with h | h <;> simp [h]
  simp only [sendLineCell, sendLineColorStep, if_neg hcond, cellGlyph]
  by_cases ht : cell.Attributes &&& WINPTY_COMMON_LVB_TRAILING_BYTE ≠ 0
  · simp [ht]
  · by_cases hsp : glyphOf cell = [' '] <;> simp [ht, hsp]

theorem foldl_no_fragment (m : Bool) (cells : List CHAR_INFO) :
    ∀ acc : LineAcc, (∀ c ∈ cells, m = true ∨ colorInt c = acc.remoteColor) →
      (cells.foldl (sendLineCell m) acc).termLine =
        acc.termLine ++ (cells.map cellGlyph).flatten := by
  induction cells with
  | nil => intro acc _; simp
  | cons c cs ih =>
    intro acc h
    have hc := h c (by simp)
    have hrc : (sendLineCell m acc c).remoteColor = acc.remoteColor ∨ m = true := by
      rcases hc with hc | hc
      · exact Or.inr hc
      · rw [sendLineCell_remoteColor, hc]; exact Or.inl rfl
    simp only [List.foldl_cons]
    rw [ih (sendLineCell m acc c) ?_, sendLineCell_termLine_of_no_frag m acc c hc]
    · simp
    · intro c' hc'
      rcases hrc with hrc | hrc
      · rw [hrc]; exact h c' (by simp [hc'])
      · exact Or.inl hrc

theorem sendLineColorStep_take_inv (m : Bool) (acc : LineAcc) (cell : CHAR_INFO)
    (h1 : acc.length ≤ acc.termLine.length)
    (h2 : (acc.termLine.take acc.length).getLast? ≠ some ' ') :
    (sendLineColorStep m acc cell).length ≤ (sendLineColorStep m acc cell).termLine.length ∧
    ((sendLineColorStep m acc cell).termLine.take
        (sendLineColorStep m acc cell).length).getLast? ≠ some ' ' := by
  simp only [sendLineColorStep]
  by_cases hc : colorInt cell ≠ acc.remoteColor ∧ ¬m = true
  · simp only [if_pos hc]
    refine ⟨le_refl _, ?_⟩
    rw [List.take_length]
    obtain ⟨s, hs⟩ := colorFragment_concat
      (foreOfColor (cell.Attributes &&& COLOR_ATTRIBUTE_MASK))
      (backOfColor (cell.Attributes &&& COLOR_ATTRIBUTE_MASK))
    rw [hs, ← List.append_assoc, List.getLast?_concat]
    simp
  · simp only [if_neg hc]
    exact ⟨h1, h2⟩

theorem sendLineCell_take_inv (m : Bool) (acc : LineAcc) (cell : CHAR_INFO)
    (h1 : acc.length ≤ acc.termLine.length)
    (h2 : (acc.termLine.take acc.length).getLast? ≠ some ' ') :
    (sendLineCell m acc cell).length ≤ (sendLineCell m acc cell).termLine.length ∧
    ((sendLineCell m acc cell).termLine.take
        (sendLineCell m acc cell).length).getLast? ≠ some ' ' := by
  obtain ⟨g1, g2⟩ := sendLineColorStep_take_inv m acc cell h1 h2
  simp only [sendLineCell]
  by_cases ht : cell.Attributes &&& WINPTY_COMMON_LVB_TRAILING_BYTE ≠ 0
  · simp only [if_pos ht]
    exact ⟨g1, g2⟩
  · simp only [if_neg ht]
    by_cases hsp : glyphOf cell = [' ']
    · simp only [if_pos hsp]
      refine ⟨?_, ?_⟩
      · simp only [List.length_append, List.length_cons, List.length_nil]
        omega
      · rw [List.take_append_of_le_length g1]
        exact g2
    · simp only [if_neg hsp]
      refine ⟨le_refl _, ?_⟩
      rw [List.take_length]
      obtain ⟨c, hcg⟩ := glyphOf_single cell
      have hne : c ≠ ' ' := by
        intro h
        exact hsp (by rw [hcg, h])
      rw [hcg, List.getLast?_concat]
      simp [hne]

theorem foldl_take_inv (m : Bool) (cells : List CHAR_INFO) :
    ∀ acc : LineAcc, acc.length ≤ acc.termLine.length →
      (acc.termLine.take acc.length).getLast? ≠ some ' ' →
      ((cells.foldl (sendLineCell m) acc).termLine.take
          (cells.foldl (sendLineCell m) acc).length).getLast? ≠ some ' ' := by
  induction cells with
  | nil => intro acc _ h2; exact h2
  | cons c cs ih =>
    intro acc h1 h2
    obtain ⟨g1, g2⟩ := sendLineCell_take_inv m acc c h1 h2
    simp only [List.foldl_cons]
    exact ih (sendLineCell m acc c) g1 g2

theorem sendLineLoop_take_no_trailing_space (m : Bool) (seed : Int) (cells : List CHAR_INFO) :
    ((sendLineLoop m seed cells).termLine.take
        (sendLineLoop m seed cells).length).getLast? ≠ some ' ' := by
  refine foldl_take_inv m cells _ ?_ ?_ <;> simp

/-! ### The belief state is independent of console mode -/

theorem belief_step (op : Op) (t t' : Terminal) (h : belief t = belief t') :
    belief (step t op).1 = belief (step t' op).1 := by
  obtain ⟨e1, e2, e3, e4⟩ : t.remoteLine = t'.remoteLine ∧ t.cursorHidden = t'.cursorHidden ∧
      t.cursorPos = t'.cursorPos ∧ t.remoteColor = t'.remoteColor := by
    simpa [belief, Prod.ext_iff] using h
  cases op <;>
    simp [step, reset, hideTerminalCursor_fst, moveTerminalToLine_eq, sendLine_fst,
          finishOutput_fst, belief, e1, e2, e3, e4]

theorem belief_runOps (ops : List Op) :
    ∀ t t' : Terminal, belief t = belief t' →
      belief (runOps ops t) = belief (runOps ops t') := by
  induction ops with
  | nil => intro t t' h; exact h
  | cons op ops ih =>
    intro t t' h
    simp only [runOps, List.foldl_cons]
    exact ih _ _ (belief_step op t t' h)

/-! ### Claims -/

/-- C6: `finishOutput` is idempotent: called twice in a row with the same
target coordinates, the second call emits no bytes; and every call stores the
desired coordinates as the new believed cursor position, whether or not any
bytes were emitted. -/
theorem finishOutput_idempotent (t : Terminal) (p : Int × Int) :
    (finishOutput (finishOutput t p).1 p).2 = []
    ∧ (finishOutput t p).1.cursorPos = p
    ∧ (finishOutput (finishOutput t p).1 p).1.cursorPos = p := by
  have hpos : (finishOutput t p).1.cursorPos = p := by rw [finishOutput_fst]
  have hhid : (finishOutput t p).1.cursorHidden = false := by rw [finishOutput_fst]
  refine ⟨?_, hpos, ?_⟩
  · generalize hs : (finishOutput t p).1 = s at hpos hhid
    simp [finishOutput, hpos, hhid]
  · rw [finishOutput_fst]

/-- C7: with a plain black background, foreground light-gray emits no explicit
foreground fragment (the fragment is just the full reset); foreground
bright-white emits a bold fragment and no white color code; foreground
dark-gray emits the dim foreground code 90 preceded by the plain-gray fallback
code 37; any other foreground emits an explicit foreground color via
`outputSetColorSgrParams` (plus the conceal fragment exactly when the
foreground is also black). -/
theorem colorFragment_black_background :
    (colorFragment LTGRAY BLACK = CSI ++ ['0', 'm'])
    ∧ (colorFragment WHITE BLACK = CSI ++ ['0', ';', '1', 'm'])
    ∧ (colorFragment DKGRAY BLACK = CSI ++ ['0', ';', '3', '7', ';', '9', '0', 'm'])
    ∧ (∀ fore, fore < 16 → fore ≠ LTGRAY → fore ≠ WHITE → fore ≠ DKGRAY →
        colorFragment fore BLACK =
          CSI ++ ['0'] ++ outputSetColorSgrParams [] true fore
              ++ (if fore = BLACK then [';', '8'] else []) ++ ['m']) := by
  decide

/-- C7 witness: foreground blue (1) on black goes through the explicit
foreground branch. -/
theorem colorFragment_black_background_witness :
    colorFragment 1 BLACK =
      CSI ++ ['0'] ++ outputSetColorSgrParams [] true 1
          ++ (if 1 = BLACK then [';', '8'] else []) ++ ['m'] :=
  colorFragment_black_background.2.2.2 1 (by decide) (by decide) (by decide) (by decide)

/-- C8: for an explicitly emitted color channel whose bright bit is set,
`outputSetColorSgrParams` appends the non-bright SGR code immediately followed
by the corresponding bright SGR code (codes 9X/10X = 3X/4X + 60), in that
order; the bright code is never emitted alone. -/
theorem outputSetColorSgrParams_bright (color : Nat) (_h1 : color < 16)
    (h2 : color &&& FLAG_BRIGHT ≠ 0) (isFore : Bool) (out : List Char) :
    outputSetColorSgrParams out isFore color =
      out ++ [';'] ++ decDigits ((if isFore then SGR_FORE else SGR_BACK) + (color &&& 7))
          ++ [';'] ++ decDigits ((if isFore then SGR_FORE_HI else SGR_BACK_HI) + (color &&& 7)) := by
  have h60 : (if isFore then SGR_FORE else SGR_BACK) + (SGR_FORE_HI - SGR_FORE) + (color &&& 7) =
      (if isFore then SGR_FORE_HI else SGR_BACK_HI) + (color &&& 7) := by
    cases isFore <;> simp [SGR_FORE, SGR_BACK, SGR_FORE_HI, SGR_BACK_HI]
  simp only [outputSetColorSgrParams, if_pos h2, outUInt, h60, List.append_assoc]

/-- C8 witness: bright blue (9) as a foreground channel emits 34 then 94. -/
theorem outputSetColorSgrParams_bright_witness :
    outputSetColorSgrParams [] true 9 =
      [] ++ [';'] ++ decDigits ((if true then SGR_FORE else SGR_BACK) + (9 &&& 7))
          ++ [';'] ++ decDigits ((if true then SGR_FORE_HI else SGR_BACK_HI) + (9 &&& 7)) :=
  outputSetColorSgrParams_bright 9 (by decide) (by decide) true []

/-- C9: outside console mode, `moveTerminalToLine` to a row above the believed
row emits one write holding a carriage return followed by a single
cursor-up-N fragment with N = believed row minus target; to a row below, one
carriage-return+linefeed write per row of difference; to the believed row
itself, a bare carriage return. -/
theorem moveTerminalToLine_emissions (t : Terminal) (h : t.consoleMode = false) :
    (∀ line, line < t.remoteLine →
       (moveTerminalToLine t line).2 =
         [('\r' :: CSI) ++ decOfInt (t.remoteLine - line) ++ ['A']])
    ∧ (∀ line, t.remoteLine < line →
       (moveTerminalToLine t line).2 =
         List.replicate (line - t.remoteLine).toNat ['\r', '\n'])
    ∧ (moveTerminalToLine t t.remoteLine).2 = [['\r']] := by
  refine ⟨fun line hl => ?_, fun line hl => ?_, ?_⟩
  · rw [moveTerminalToLine_eq]
    simp [h, hl]
  · rw [moveTerminalToLine_eq]
    simp [h, hl, if_neg (not_lt.2 hl.le)]
  · rw [moveTerminalToLine_eq]
    simp

/-- C9 witness: from row 5 to row 2 exactly one cursor-up-3 fragment; from
row 2 to row 5 exactly three CR+LF writes; from row 3 to row 3 a bare CR. -/
theorem moveTerminalToLine_emissions_witness :
    (moveTerminalToLine { initTerminal with remoteLine := 5 } 2).2
      = [['\r', '\x1b', '[', '3', 'A']]
    ∧ (moveTerminalToLine { initTerminal with remoteLine := 2 } 5).2
      = [['\r', '\n'], ['\r', '\n'], ['\r', '\n']]
    ∧ (moveTerminalToLine { initTerminal with remoteLine := 3 } 3).2 = [['\r']] := by
  refine ⟨?_, ?_, ?_⟩
  · rw [(moveTerminalToLine_emissions { initTerminal with remoteLine := 5 } rfl).1 2 (by decide)]
    decide
  · rw [(moveTerminalToLine_emissions { initTerminal with remoteLine := 2 } rfl).2.1 5 (by decide)]
    decide
  · exact (moveTerminalToLine_emissions { initTerminal with remoteLine := 3 } rfl).2.2

/-- C10: the belief state (believed row, cursor hidden, believed cursor
position, last sent color) evolves identically under any sequence of
operations whether console (bypass) mode is on or off; the flag affects only
the bytes written. -/
theorem belief_consoleMode_independent (ops : List Op) (t : Terminal) :
    belief (runOps ops { t with consoleMode := true }) =
    belief (runOps ops { t with consoleMode := false }) :=
  belief_runOps ops _ _ rfl

/-- C1 counterexample: render the one-cell row `[A, light-gray-on-black]`
twice from a fresh terminal.  The second call's writes are exactly the
movement CR, the erase-line fragment, and the bare glyph `A`: no color
fragment is emitted for the first cell of the second call, because
`m_remoteColor` is carried over from the previous row instead of being reset
to the unset sentinel at the start of `sendLine`. -/
theorem sendLine_rerender_no_color_fragment :
    (sendLine (sendLine initTerminal 0 [⟨65, 7⟩]).1 0 [⟨65, 7⟩]).2
      = [['\r'], CSI ++ ['2', 'K'], ['A']] := by
  decide

/-- C1 (amended): at the start of `sendLine` the last sent color is NOT
treated as unset: the cell loop seeds its comparison with the persisted
`m_remoteColor`, which only `reset` returns to the unset sentinel.  Hence,
outside console mode, a row all of whose cells carry exactly the persisted
color is emitted with no color fragment at all: the content write is a prefix
of the bare glyph bytes. -/
theorem sendLine_color_carry (t : Terminal) (line : Int) (cells : List CHAR_INFO)
    (hm : t.consoleMode = false)
    (hall : ∀ c ∈ cells, colorInt c = t.remoteColor) :
    ∃ n, (sendLine t line cells).2.getLast? =
      some (((cells.map cellGlyph).flatten).take n) := by
  refine ⟨(sendLineLoop false t.remoteColor cells).length, ?_⟩
  have hTL : (sendLineLoop false t.remoteColor cells).termLine
      = (cells.map cellGlyph).flatten := by
    have h := foldl_no_fragment false cells ⟨[], 0, t.remoteColor⟩
      (fun c hc => Or.inr (hall c hc))
    simpa [sendLineLoop] using h
  simp only [sendLine, hideTerminalCursor_fst, moveTerminalToLine_eq, hm]
  rw [List.getLast?_concat, hTL]

/-- C1 witness: after rendering `[A, light-gray-on-black]` once, a second
render of the same row from the resulting state. -/
theorem sendLine_color_carry_witness :
    ∃ n, (sendLine (sendLine initTerminal 0 [⟨65, 7⟩]).1 0 [⟨65, 7⟩]).2.getLast? =
      some ((([(⟨65, 7⟩ : CHAR_INFO)].map cellGlyph).flatten).take n) :=
  sendLine_color_carry (sendLine initTerminal 0 [⟨65, 7⟩]).1 0 [⟨65, 7⟩]
    (by decide) (by decide)

/-- C2 counterexample: with the cursor already hidden and the believed row
equal to the target row, `sendLine` issues three writes: the movement CR,
then the erase-line fragment as a write of its own, then the row content as
another write.  Setting the single movement write aside, two writes remain,
not one: the erase fragment and the content are not flushed together. -/
theorem sendLine_separate_erase_write :
    (sendLine { initTerminal with cursorHidden := true } 0 [⟨65, 7⟩]).2
      = [['\r'], CSI ++ ['2', 'K'], ['\x1b', '[', '0', 'm', 'A']]
    ∧ (sendLine { initTerminal with cursorHidden := true } 0 [⟨65, 7⟩]).2.length = 3 := by
  decide

/-- C2 (amended): outside console mode, every `sendLine` call issues, after
the hide-cursor and movement writes, exactly two further writes: the
erase-line fragment on its own, then the accumulated row content (cut at the
significant length) as one write. -/
theorem sendLine_write_structure (t : Terminal) (line : Int) (cells : List CHAR_INFO)
    (hm : t.consoleMode = false) :
    (sendLine t line cells).2 =
      (hideTerminalCursor t).2
      ++ (moveTerminalToLine { t with cursorHidden := true } line).2
      ++ [CSI ++ ['2', 'K'],
          (sendLineLoop false t.remoteColor cells).termLine.take
            (sendLineLoop false t.remoteColor cells).length] := by
  simp only [sendLine, hideTerminalCursor_fst, moveTerminalToLine_eq, hm]
  simp [List.append_assoc]

/-- C2 witness: the write structure of a render of the empty row from a fresh
terminal. -/
theorem sendLine_write_structure_witness :
    (sendLine initTerminal 0 []).2 =
      (hideTerminalCursor initTerminal).2
      ++ (moveTerminalToLine { initTerminal with cursorHidden := true } 0).2
      ++ [CSI ++ ['2', 'K'],
          (sendLineLoop false initTerminal.remoteColor []).termLine.take
            (sendLineLoop false initTerminal.remoteColor []).length] :=
  sendLine_write_structure initTerminal 0 [] rfl

/-- C3 counterexample: a single black-on-black space cell rendered from a
fresh terminal.  The content write is exactly the color fragment
`ESC [0;30;8m` with nothing visible after it: a trailing color fragment IS
transmitted, because `length` is also snapshotted right after a color
fragment is appended. -/
theorem sendLine_trailing_fragment_transmitted :
    (sendLine initTerminal 0 [⟨32, 0⟩]).2
      = [CSI ++ ['?', '2', '5', 'l'], ['\r'], CSI ++ ['2', 'K'],
         ['\x1b', '[', '0', ';', '3', '0', ';', '8', 'm']]
    ∧ (sendLine initTerminal 0 [⟨32, 0⟩]).2.getLast? = some (colorFragment 0 0) := by
  decide

/-- C3 (amended): the significant length is the byte offset just past the
last color fragment or non-space glyph emission.  Consequently the content
write never ends in a space (trailing space runs are cut), but a trailing
color fragment lies inside the significant prefix and is transmitted: for a
one-cell row whose cell changes color and is a space, the content write is
exactly that color fragment. -/
theorem sendLine_significant_length :
    (∀ (t : Terminal) (line : Int) (cells : List CHAR_INFO) (w : List Char),
       (sendLine t line cells).2.getLast? = some w → w.getLast? ≠ some ' ')
    ∧ (∀ (t : Terminal) (line : Int) (cell : CHAR_INFO),
       t.consoleMode = false → colorInt cell ≠ t.remoteColor →
       cell.Attributes &&& WINPTY_COMMON_LVB_TRAILING_BYTE = 0 →
       cell.UnicodeChar = 32 →
       (sendLine t line [cell]).2.getLast? =
         some (colorFragment (foreOfColor (cell.Attributes &&& COLOR_ATTRIBUTE_MASK))
                             (backOfColor (cell.Attributes &&& COLOR_ATTRIBUTE_MASK)))) := by
  constructor
  · intro t line cells w hw
    simp only [sendLine] at hw
    rw [List.getLast?_concat] at hw
    injection hw with hw
    rw [← hw]
    exact sendLineLoop_take_no_trailing_space _ _ cells
  · intro t line cell hm hne ht hch
    have hglyph : glyphOf cell = [' '] := by
      unfold glyphOf
      rw [hch]
      decide
    have hcs : sendLineColorStep false ⟨[], 0, t.remoteColor⟩ cell =
        { termLine := colorFragment (foreOfColor (cell.Attributes &&& COLOR_ATTRIBUTE_MASK))
                        (backOfColor (cell.Attributes &&& COLOR_ATTRIBUTE_MASK)),
          length := (colorFragment (foreOfColor (cell.Attributes &&& COLOR_ATTRIBUTE_MASK))
                        (backOfColor (cell.Attributes &&& COLOR_ATTRIBUTE_MASK))).length,
          remoteColor := colorInt cell } := by
      simp only [sendLineColorStep]
      rw [if_pos ⟨hne, by simp⟩]
      simp
    have hloop : sendLineLoop false t.remoteColor [cell] =
        { termLine := colorFragment (foreOfColor (cell.Attributes &&& COLOR_ATTRIBUTE_MASK))
                        (backOfColor (cell.Attributes &&& COLOR_ATTRIBUTE_MASK)) ++ [' '],
          length := (colorFragment (foreOfColor (cell.Attributes &&& COLOR_ATTRIBUTE_MASK))
                        (backOfColor (cell.Attributes &&& COLOR_ATTRIBUTE_MASK))).length,
          remoteColor := colorInt cell } := by
      simp only [sendLineLoop, List.foldl_cons, List.foldl_nil, sendLineCell, hcs]
      rw [if_neg (by simp [ht]), if_pos hglyph]
    simp only [sendLine, hideTerminalCursor_fst, moveTerminalToLine_eq, hm, hloop]
    rw [List.getLast?_concat]
    rw [List.take_append_of_le_length (le_refl _), List.take_length]

/-- C3 witness: a red-on-black space cell from a fresh terminal: the content
write ends with (indeed, is) the red color fragment although only a blank
follows it. -/
theorem sendLine_significant_length_witness :
    (sendLine initTerminal 0 [⟨32, 4⟩]).2.getLast? =
      some (colorFragment (foreOfColor ((⟨32, 4⟩ : CHAR_INFO).Attributes &&& COLOR_ATTRIBUTE_MASK))
                          (backOfColor ((⟨32, 4⟩ : CHAR_INFO).Attributes &&& COLOR_ATTRIBUTE_MASK))) :=
  sendLine_significant_length.2 initTerminal 0 ⟨32, 4⟩ rfl (by decide) (by decide) rfl

/-- C4 counterexample: a fresh terminal and a one-cell row whose only cell is
marked `COMMON_LVB_TRAILING_BYTE` with black-on-black color.  The content
write is the nine-byte color fragment `ESC [0;30;8m`: processing the trailing
cell contributed bytes to the output (its color was compared and emitted
before the `continue`). -/
theorem sendLine_trailing_cell_emits_bytes :
    (sendLine initTerminal 0 [⟨65, 0x200⟩]).2
      = [CSI ++ ['?', '2', '5', 'l'], ['\r'], CSI ++ ['2', 'K'],
         ['\x1b', '[', '0', ';', '3', '0', ';', '8', 'm']]
    ∧ (sendLine initTerminal 0 [⟨65, 0x200⟩]).2.getLast? ≠ some [] := by
  decide

/-- C4 (amended): a cell marked as a wide-character trailing-byte
continuation contributes zero GLYPH bytes: the loop iteration for it is
exactly the color step followed by `continue`, and when additionally its
color equals the last sent color (or console mode is on), its iteration
leaves the row buffer and the significant length untouched. -/
theorem sendLineCell_trailing (m : Bool) (acc : LineAcc) (cell : CHAR_INFO)
    (h : cell.Attributes &&& WINPTY_COMMON_LVB_TRAILING_BYTE ≠ 0) :
    sendLineCell m acc cell = sendLineColorStep m acc cell
    ∧ (colorInt cell = acc.remoteColor →
        (sendLineCell m acc cell).termLine = acc.termLine ∧
        (sendLineCell m acc cell).length = acc.length) := by
  constructor
  · simp [sendLineCell, h]
  · intro he
    have hstep : sendLineColorStep m acc cell = { acc with remoteColor := colorInt cell } := by
      simp [sendLineColorStep, he]
    simp [sendLineCell, h, hstep]

/-- C4 witness: a trailing-byte cell whose color matches the running last
sent color leaves the row buffer untouched. -/
theorem sendLineCell_trailing_witness :
    sendLineCell false ⟨[], 0, 0⟩ ⟨65, 0x200⟩ = sendLineColorStep false ⟨[], 0, 0⟩ ⟨65, 0x200⟩
    ∧ (sendLineCell false ⟨[], 0, 0⟩ ⟨65, 0x200⟩).termLine = ([] : List Char)
    ∧ (sendLineCell false ⟨[], 0, 0⟩ ⟨65, 0x200⟩).length = 0 := by
  have h := sendLineCell_trailing false ⟨[], 0, 0⟩ ⟨65, 0x200⟩ (by decide)
  exact ⟨h.1, (h.2 (by decide)).1, (h.2 (by decide)).2⟩

theorem hideTerminalCursor_snd (t : Terminal) :
    (hideTerminalCursor t).2 =
      if t.cursorHidden ∨ t.consoleMode then [] else [CSI ++ ['?', '2', '5', 'l']] := by
  by_cases hh : t.cursorHidden
  · simp [hideTerminalCursor, hh]
  · by_cases hc : t.consoleMode <;> simp [hideTerminalCursor, hh, hc]

theorem moveTerminalToLine_snd_console (t : Terminal) (h : t.consoleMode = true) (line : Int) :
    (moveTerminalToLine t line).2 = if line = t.remoteLine then [['\r']] else [] := by
  rw [moveTerminalToLine_eq]
  simp only [h, if_true]
  split_ifs <;> first | rfl | omega

theorem moveTerminalToLine_fst (t : Terminal) (line : Int) :
    (moveTerminalToLine t line).1 = { t with remoteLine := line } := by
  rw [moveTerminalToLine_eq]

theorem finishOutput_snd_console (t : Terminal) (p : Int × Int) (h : t.consoleMode = true) :
    (finishOutput t p).2 =
      if (p ≠ t.cursorPos ∨ t.cursorHidden) ∧ p.2 = t.remoteLine then [['\r']] else [] := by
  by_cases hp : p = t.cursorPos
  · have hr1 : (if p ≠ t.cursorPos then hideTerminalCursor t else (t, ([] : List (List Char))))
        = (t, ([] : List (List Char))) := by
      rw [if_neg (by simp [hp])]
    by_cases hh : t.cursorHidden
    · simp only [finishOutput, hr1]
      rw [if_pos hh, moveTerminalToLine_snd_console t h p.2, moveTerminalToLine_fst]
      simp [hp, hh, h]
    · simp only [finishOutput, hr1]
      rw [if_neg hh]
      simp [hp, hh]
  · have hr1 : (if p ≠ t.cursorPos then hideTerminalCursor t else (t, ([] : List (List Char))))
        = hideTerminalCursor t := by
      rw [if_pos (by simp [hp])]
    have hcon : ({ t with cursorHidden := true } : Terminal).consoleMode = true := h
    simp only [finishOutput, hr1, hideTerminalCursor_fst]
    rw [if_pos trivial, moveTerminalToLine_snd_console { t with cursorHidden := true } hcon p.2,
        moveTerminalToLine_fst]
    simp [hideTerminalCursor_snd, hp, h]

/-- C5 counterexample: in console (bypass) mode, moving to the row the
encoder already believes the cursor is on still writes a bare carriage
return — a movement byte, not raw cell text — because the equal-row branch of
`moveTerminalToLine` writes unconditionally. -/
theorem consoleMode_bare_cr :
    (moveTerminalToLine { initTerminal with remoteLine := 3, consoleMode := true } 3).2
      = [['\r']]
    ∧ (moveTerminalToLine { initTerminal with remoteLine := 3, consoleMode := true } 3).2
      ≠ ([] : List (List Char)) := by
  decide

/-- C5 (amended): in console (bypass) mode no escape sequence or styling
fragment is ever written: `reset` and `hideTerminalCursor` write nothing,
`moveTerminalToLine` writes nothing except a bare carriage return when the
target equals the believed row, `finishOutput` writes nothing or that same
bare carriage return, and `sendLine` writes only the possible bare carriage
return followed by one write holding a prefix of the raw glyph bytes. -/
theorem consoleMode_write_suppression (t : Terminal) (h : t.consoleMode = true) :
    (∀ (b : Bool) (l : Int), (reset t b l).2 = [])
    ∧ (hideTerminalCursor t).2 = []
    ∧ (∀ line, (moveTerminalToLine t line).2 = if line = t.remoteLine then [['\r']] else [])
    ∧ (∀ p : Int × Int, (finishOutput t p).2 = [] ∨ (finishOutput t p).2 = [['\r']])
    ∧ (∀ (line : Int) (cells : List CHAR_INFO), ∃ n, (sendLine t line cells).2 =
         (if line = t.remoteLine then [['\r']] else []) ++
         [((cells.map cellGlyph).flatten).take n]) := by
  refine ⟨?_, ?_, moveTerminalToLine_snd_console t h, ?_, ?_⟩
  · intro b l
    simp [reset, h]
  · simp [hideTerminalCursor_snd, h]
  · intro p
    rw [finishOutput_snd_console t p h]
    split_ifs
    · exact Or.inr rfl
    · exact Or.inl rfl
  · intro line cells
    refine ⟨(sendLineLoop true t.remoteColor cells).length, ?_⟩
    have hTL : (sendLineLoop true t.remoteColor cells).termLine
        = (cells.map cellGlyph).flatten := by
      have hff := foldl_no_fragment true cells ⟨[], 0, t.remoteColor⟩ (fun c _ => Or.inl rfl)
      simpa [sendLineLoop] using hff
    simp only [sendLine, hideTerminalCursor_fst, moveTerminalToLine_eq, hideTerminalCursor_snd, h]
    rw [hTL]
    simp only [List.append_assoc]
    split_ifs <;> first | rfl | omega | simp_all

/-- C5 witness: in console mode a clearing reset writes nothing. -/
theorem consoleMode_write_suppression_witness :
    (reset { initTerminal with consoleMode := true } true 5).2 = [] :=
  (consoleMode_write_suppression { initTerminal with consoleMode := true } rfl).1 true 5
